import Mathlib

/-!
Verification development for the jwst_lab pipeline scripts.

Shallow embedding conventions:
* python floats are modelled as rationals (`ℚ`); a value of a FITS array is
  `Option ℚ`, with `none` standing for a non-finite float (NaN or ±inf);
* pandas tables are lists of row structures together with booleans recording
  which optional columns the concrete CSV provides;
* calls into foreign libraries that the scripts only pass through
  (scipy savgol_filter, scipy curve_fit, the fitting core of sklearn
  IsolationForest) are function parameters of the embedding, so every theorem
  holds for each possible behaviour of those routines;
* a python function that can raise returns `Except String α`, the error string
  naming the exception.
-/

namespace JwstLab

/-- Ascending insertion of a rational into a list. -/
def insertAsc (a : ℚ) : List ℚ → List ℚ
  | [] => [a]
  | b :: l => if a ≤ b then a :: b :: l else b :: insertAsc a l

/-- Ascending insertion sort, the comparison sort behind `numpy.median`. -/
def sortAsc : List ℚ → List ℚ
  | [] => []
  | a :: l => insertAsc a (sortAsc l)

/-- `numpy.median` of a nonempty list: sort, take the middle element for odd
length and the mean of the two middle elements for even length. -/
def npMedian (l : List ℚ) : ℚ :=
  let s := sortAsc l
  if l.length % 2 = 1 then s.getD (l.length / 2) 0
  else (s.getD (l.length / 2 - 1) 0 + s.getD (l.length / 2) 0) / 2

/-- `pandas.Series.max` of a nonempty numeric column. -/
def seriesMax : List ℚ → ℚ
  | [] => 0
  | [a] => a
  | a :: l => max a (seriesMax l)

/-- `pandas.Series.min` of a nonempty numeric column. -/
def seriesMin : List ℚ → ℚ
  | [] => 0
  | [a] => a
  | a :: l => min a (seriesMin l)

theorem le_seriesMax {l : List ℚ} {x : ℚ} (hx : x ∈ l) : x ≤ seriesMax l := by
  induction l with
  | nil => cases hx
  | cons a l ih =>
    cases l with
    | nil => simp only [List.mem_singleton] at hx; simp [seriesMax, hx]
    | cons b t =>
      rcases List.mem_cons.1 hx with h | h
      · simp [seriesMax, h]
      · exact le_trans (ih h) (le_max_right _ _)

theorem seriesMin_le {l : List ℚ} {x : ℚ} (hx : x ∈ l) : seriesMin l ≤ x := by
  induction l with
  | nil => cases hx
  | cons a l ih =>
    cases l with
    | nil => simp only [List.mem_singleton] at hx; simp [seriesMin, hx]
    | cons b t =>
      rcases List.mem_cons.1 hx with h | h
      · simp [seriesMin, h]
      · exact le_trans (min_le_right _ _) (ih h)

theorem seriesMin_mem : ∀ l : List ℚ, l ≠ [] → seriesMin l ∈ l := by
  intro l
  induction l with
  | nil => intro h; exact absurd rfl h
  | cons a l ih =>
    intro _
    cases l with
    | nil => simp [seriesMin]
    | cons b t =>
      rcases le_total a (seriesMin (b :: t)) with h | h
      · simp [seriesMin, min_eq_left h]
      · have heq : seriesMin (a :: b :: t) = seriesMin (b :: t) := by
          simp [seriesMin, min_eq_right h]
        rw [heq]
        exact List.mem_cons.2 (Or.inr (ih (by simp)))

theorem seriesMax_mem : ∀ l : List ℚ, l ≠ [] → seriesMax l ∈ l := by
  intro l
  induction l with
  | nil => intro h; exact absurd rfl h
  | cons a l ih =>
    intro _
    cases l with
    | nil => simp [seriesMax]
    | cons b t =>
      rcases le_total (seriesMax (b :: t)) a with h | h
      · simp [seriesMax, max_eq_left h]
      · have heq : seriesMax (a :: b :: t) = seriesMax (b :: t) := by
          simp [seriesMax, max_eq_right h]
        rw [heq]
        exact List.mem_cons.2 (Or.inr (ih (by simp)))

/-- Descending insertion by a rational key: the sort behind
`sort_values(..., ascending=False)`. -/
def insertDesc {α : Type} (key : α → ℚ) (a : α) : List α → List α
  | [] => [a]
  | b :: l => if key b < key a then a :: b :: l else b :: insertDesc key a l

/-- Descending sort by a rational key. -/
def sortDesc {α : Type} (key : α → ℚ) : List α → List α
  | [] => []
  | a :: l => insertDesc key a (sortDesc key l)

theorem mem_insertDesc {α : Type} (key : α → ℚ) (a x : α) (l : List α) :
    x ∈ insertDesc key a l ↔ x = a ∨ x ∈ l := by
  induction l with
  | nil => simp [insertDesc]
  | cons b t ih =>
    unfold insertDesc
    by_cases h : key b < key a
    · rw [if_pos h]; simp [or_comm, or_assoc, or_left_comm]
    · rw [if_neg h]; simp [ih, or_comm, or_assoc, or_left_comm]

theorem mem_sortDesc {α : Type} (key : α → ℚ) (x : α) (l : List α) :
    x ∈ sortDesc key l ↔ x ∈ l := by
  induction l with
  | nil => simp [sortDesc]
  | cons a t ih => simp [sortDesc, mem_insertDesc, ih]

theorem length_insertDesc {α : Type} (key : α → ℚ) (a : α) (l : List α) :
    (insertDesc key a l).length = l.length + 1 := by
  induction l with
  | nil => rfl
  | cons b t ih =>
    unfold insertDesc
    by_cases h : key b < key a
    · rw [if_pos h]; rfl
    · rw [if_neg h]; simp [ih]

theorem length_sortDesc {α : Type} (key : α → ℚ) (l : List α) :
    (sortDesc key l).length = l.length := by
  induction l with
  | nil => rfl
  | cons a t ih => simp [sortDesc, length_insertDesc, ih]

theorem pairwise_insertDesc {α : Type} (key : α → ℚ) (a : α) (l : List α)
    (h : l.Pairwise fun x y => key y ≤ key x) :
    (insertDesc key a l).Pairwise fun x y => key y ≤ key x := by
  induction l with
  | nil => simp [insertDesc]
  | cons b t ih =>
    unfold insertDesc
    rcases List.pairwise_cons.1 h with ⟨hb, ht⟩
    by_cases hk : key b < key a
    · rw [if_pos hk]
      refine List.pairwise_cons.2 ⟨?_, h⟩
      intro y hy
      rcases List.mem_cons.1 hy with rfl | hy
      · exact le_of_lt hk
      · exact le_trans (hb y hy) (le_of_lt hk)
    · rw [if_neg hk]
      refine List.pairwise_cons.2 ⟨?_, ih ht⟩
      intro y hy
      rcases (mem_insertDesc key a y t).1 hy with rfl | hy
      · exact le_of_not_lt hk
      · exact hb y hy

theorem pairwise_sortDesc {α : Type} (key : α → ℚ) (l : List α) :
    (sortDesc key l).Pairwise fun x y => key y ≤ key x := by
  induction l with
  | nil => simp [sortDesc]
  | cons a t ih => exact pairwise_insertDesc key a _ ih

theorem mem_insertAsc (a x : ℚ) (l : List ℚ) :
    x ∈ insertAsc a l ↔ x = a ∨ x ∈ l := by
  induction l with
  | nil => simp [insertAsc]
  | cons b t ih =>
    unfold insertAsc
    by_cases h : a ≤ b
    · rw [if_pos h]; simp [or_comm, or_assoc, or_left_comm]
    · rw [if_neg h]; simp [ih, or_comm, or_assoc, or_left_comm]

theorem perm_insertAsc (a : ℚ) (l : List ℚ) : List.Perm (insertAsc a l) (a :: l) := by
  induction l with
  | nil => rfl
  | cons b t ih =>
    unfold insertAsc
    by_cases h : a ≤ b
    · rw [if_pos h]
    · rw [if_neg h]
      exact List.Perm.trans (List.Perm.cons b ih) (List.Perm.swap a b t)

theorem perm_sortAsc (l : List ℚ) : List.Perm (sortAsc l) l := by
  induction l with
  | nil => rfl
  | cons a t ih =>
    exact List.Perm.trans (perm_insertAsc a (sortAsc t)) (List.Perm.cons a ih)

theorem sorted_insertAsc (a : ℚ) (l : List ℚ) (h : l.Sorted (· ≤ ·)) :
    (insertAsc a l).Sorted (· ≤ ·) := by
  induction l with
  | nil => simp [insertAsc]
  | cons b t ih =>
    unfold insertAsc
    rcases List.pairwise_cons.1 h with ⟨hb, ht⟩
    by_cases hab : a ≤ b
    · rw [if_pos hab]
      refine List.pairwise_cons.2 ⟨?_, h⟩
      intro y hy
      rcases List.mem_cons.1 hy with rfl | hy
      · exact hab
      · exact le_trans hab (hb y hy)
    · rw [if_neg hab]
      refine List.pairwise_cons.2 ⟨?_, ih ht⟩
      intro y hy
      rcases (mem_insertAsc a y t).1 hy with rfl | hy
      · exact le_of_not_le hab
      · exact hb y hy

theorem sorted_sortAsc (l : List ℚ) : (sortAsc l).Sorted (· ≤ ·) := by
  induction l with
  | nil => simp [sortAsc]
  | cons a t ih => exact sorted_insertAsc a _ ih

theorem sorted_replicate (n : ℕ) (a : ℚ) : (List.replicate n a).Sorted (· ≤ ·) := by
  induction n with
  | zero => simp
  | succ n ih =>
    rw [List.replicate_succ]
    refine List.pairwise_cons.2 ⟨?_, ih⟩
    intro y hy
    rw [List.eq_of_mem_replicate hy]

theorem getD_replicate (n i : ℕ) (a d : ℚ) (h : i < n) :
    (List.replicate n a).getD i d = a := by
  induction n generalizing i with
  | zero => cases h
  | succ n ih =>
    rw [List.replicate_succ]
    cases i with
    | zero => rfl
    | succ i => exact ih i (Nat.lt_of_succ_lt_succ h)

/-! ## scripts/04_rank_candidates.py -/

namespace Rank

/-- One row of the combined candidate table, holding the columns that
`rank_candidates` reads.  The numeric fields carry the values after
`pd.to_numeric(..., errors="coerce").fillna(0)`. -/
structure CandidateRow where
  anomaly_score : ℚ
  snr : ℚ
  max_line_snr : ℚ
  flags : String
  obs_id : String
  deriving Repr, DecidableEq, Inhabited

/-- The combined candidate table: its rows plus which optional columns the
concrete CSVs provided (pandas column membership tests in the source). -/
structure CombinedTable where
  rows : List CandidateRow
  has_anomaly_score : Bool
  has_snr : Bool
  has_max_line_snr : Bool
  has_flags : Bool
  has_obs_id : Bool
  deriving Repr, DecidableEq, Inhabited

/-- Normalisation of the `anomaly_score` column: when the column maximum
strictly exceeds the minimum, map linearly onto [0, 1]; otherwise the source
assigns the scalar 0.5 to the whole column. -/
def normalizeAnomaly (scores : List ℚ) : List ℚ :=
  if seriesMin scores < seriesMax scores then
    scores.map fun s => (s - seriesMin scores) / (seriesMax scores - seriesMin scores)
  else
    scores.map fun _ => (1 : ℚ) / 2

/-- The per-row `anomaly_score_norm` value: the normalised score when the
column exists, and the scalar 0.0 when it does not. -/
def anomalyNorm (t : CombinedTable) (r : CandidateRow) : ℚ :=
  if t.has_anomaly_score then
    if seriesMin (t.rows.map CandidateRow.anomaly_score) <
        seriesMax (t.rows.map CandidateRow.anomaly_score) then
      (r.anomaly_score - seriesMin (t.rows.map CandidateRow.anomaly_score)) /
        (seriesMax (t.rows.map CandidateRow.anomaly_score) -
          seriesMin (t.rows.map CandidateRow.anomaly_score))
    else (1 : ℚ) / 2
  else 0

/-- SNR normalisation inside the composite score: linear map onto [0, 1] when
the column maximum strictly exceeds the minimum, otherwise `snr * 0 = 0`. -/
def snrNorm (vals : List ℚ) (v : ℚ) : ℚ :=
  if seriesMin vals < seriesMax vals then
    (v - seriesMin vals) / (seriesMax vals - seriesMin vals)
  else 0

/-- Whether `needle` occurs in `hay` ignoring case: one alternative of the
`str.contains("border|high_ellipticity|has_nan|low_snr", case=False)` regex. -/
def strContainsCI (hay needle : String) : Bool :=
  (hay.toLower.data).tails.any fun t => (needle.toLower.data).isPrefixOf t

/-- The artifact alternatives of the flag regex in the source. -/
def artifactNeedles : List String := ["border", "high_ellipticity", "has_nan", "low_snr"]

/-- `is_artifact` of a row: its `flags` string matches the artifact regex. -/
def isArtifact (flags : String) : Bool :=
  artifactNeedles.any fun n => strContainsCI flags n

/-- `value_counts` lookup: how often `o` occurs in the `obs_id` column. -/
def obsCount (rows : List CandidateRow) (o : String) : ℕ :=
  (rows.filter fun r => r.obs_id = o).length

/-- `obs_counts.max()`: the largest occurrence count of any `obs_id`. -/
def maxObsCount (rows : List CandidateRow) : ℕ :=
  (rows.map fun r => obsCount rows r.obs_id).foldr max 0

/-- The anomaly-score accumulation into `composite_scores` (weight 0.4). -/
def anomalyTerm (t : CombinedTable) (r : CandidateRow) : ℚ :=
  (2 / 5 : ℚ) * anomalyNorm t r

/-- The SNR accumulation (weight 0.3): the `snr` column when present, else the
`max_line_snr` column when present, else nothing is added. -/
def snrTerm (t : CombinedTable) (r : CandidateRow) : ℚ :=
  if t.has_snr then (3 / 10 : ℚ) * snrNorm (t.rows.map CandidateRow.snr) r.snr
  else if t.has_max_line_snr then
    (3 / 10 : ℚ) * snrNorm (t.rows.map CandidateRow.max_line_snr) r.max_line_snr
  else 0

/-- The artifact-flag accumulation (weight 0.2): 0.2 for a row whose flags do
not match the artifact regex, and the flat 0.2 when no flags column exists. -/
def flagTerm (t : CombinedTable) (r : CandidateRow) : ℚ :=
  if t.has_flags then (if isArtifact r.flags then 0 else (1 / 5 : ℚ))
  else (1 / 5 : ℚ)

/-- The cross-frame consistency accumulation (weight 0.1). -/
def obsTerm (t : CombinedTable) (r : CandidateRow) : ℚ :=
  if t.has_obs_id then
    (1 / 10 : ℚ) * ((obsCount t.rows r.obs_id : ℚ) / (maxObsCount t.rows : ℚ))
  else (1 / 10 : ℚ)

/-- The composite score of one row of the combined table, mirroring the four
weighted accumulations into `composite_scores`. -/
def compositeScore (t : CombinedTable) (r : CandidateRow) : ℚ :=
  anomalyTerm t r + snrTerm t r + flagTerm t r + obsTerm t r

theorem anomalyNorm_bounds (t : CombinedTable) (r : CandidateRow) (hr : r ∈ t.rows) :
    0 ≤ anomalyNorm t r ∧ anomalyNorm t r ≤ 1 := by
  have hmem : r.anomaly_score ∈ t.rows.map CandidateRow.anomaly_score :=
    List.mem_map_of_mem _ hr
  have hlo := seriesMin_le hmem
  have hhi := le_seriesMax hmem
  unfold anomalyNorm
  rcases t.has_anomaly_score with _ | _
  · simp
  · simp only [if_true]
    by_cases hlt : seriesMin (t.rows.map CandidateRow.anomaly_score) <
        seriesMax (t.rows.map CandidateRow.anomaly_score)
    · rw [if_pos hlt]
      have hpos : 0 < seriesMax (t.rows.map CandidateRow.anomaly_score) -
          seriesMin (t.rows.map CandidateRow.anomaly_score) := by linarith
      constructor
      · exact div_nonneg (by linarith) (le_of_lt hpos)
      · rw [div_le_one hpos]; linarith
    · rw [if_neg hlt]; norm_num

theorem snrNorm_bounds (vals : List ℚ) (v : ℚ) (hv : v ∈ vals) :
    0 ≤ snrNorm vals v ∧ snrNorm vals v ≤ 1 := by
  have hlo := seriesMin_le hv
  have hhi := le_seriesMax hv
  unfold snrNorm
  by_cases hlt : seriesMin vals < seriesMax vals
  · rw [if_pos hlt]
    have hpos : 0 < seriesMax vals - seriesMin vals := by linarith
    constructor
    · exact div_nonneg (by linarith) (le_of_lt hpos)
    · rw [div_le_one hpos]; linarith
  · rw [if_neg hlt]; norm_num

theorem le_foldr_max {l : List ℕ} {x : ℕ} (hx : x ∈ l) : x ≤ l.foldr max 0 := by
  induction l with
  | nil => cases hx
  | cons a l ih =>
    rcases List.mem_cons.1 hx with h | h
    · simp [h, le_max_left]
    · exact le_trans (ih h) (by simp [le_max_right])

theorem obsCount_pos (rows : List CandidateRow) (r : CandidateRow) (hr : r ∈ rows) :
    1 ≤ obsCount rows r.obs_id := by
  have : r ∈ rows.filter fun q => q.obs_id = r.obs_id := by
    rw [List.mem_filter]; exact ⟨hr, by simp⟩
  have hne : (rows.filter fun q => q.obs_id = r.obs_id) ≠ [] := by
    intro h; rw [h] at this; cases this
  unfold obsCount
  exact Nat.one_le_iff_ne_zero.2 (by simpa [List.length_eq_zero] using hne)

theorem obsCount_le_max (rows : List CandidateRow) (r : CandidateRow) (hr : r ∈ rows) :
    obsCount rows r.obs_id ≤ maxObsCount rows := by
  unfold maxObsCount
  exact le_foldr_max (List.mem_map_of_mem _ hr)

theorem obsRatio_bounds (rows : List CandidateRow) (r : CandidateRow) (hr : r ∈ rows) :
    0 ≤ (obsCount rows r.obs_id : ℚ) / (maxObsCount rows : ℚ) ∧
      (obsCount rows r.obs_id : ℚ) / (maxObsCount rows : ℚ) ≤ 1 := by
  have h1 := obsCount_pos rows r hr
  have h2 := obsCount_le_max rows r hr
  have hmpos : (0 : ℚ) < (maxObsCount rows : ℚ) := by
    have : 1 ≤ maxObsCount rows := le_trans h1 h2
    exact_mod_cast Nat.lt_of_lt_of_le Nat.zero_lt_one this
  constructor
  · exact div_nonneg (by positivity) (le_of_lt hmpos)
  · rw [div_le_one hmpos]; exact_mod_cast h2

theorem snrTerm_bounds (t : CombinedTable) (r : CandidateRow) (hr : r ∈ t.rows) :
    0 ≤ snrTerm t r ∧ snrTerm t r ≤ 3 / 10 := by
  have h1 := snrNorm_bounds (t.rows.map CandidateRow.snr) r.snr (List.mem_map_of_mem _ hr)
  have h2 := snrNorm_bounds (t.rows.map CandidateRow.max_line_snr) r.max_line_snr
    (List.mem_map_of_mem _ hr)
  unfold snrTerm
  rcases t.has_snr with _ | _
  · rcases t.has_max_line_snr with _ | _
    · norm_num
    · norm_num
      constructor <;> linarith [h2.1, h2.2]
  · norm_num
    constructor <;> linarith [h1.1, h1.2]

theorem flagTerm_bounds (t : CombinedTable) (r : CandidateRow) :
    0 ≤ flagTerm t r ∧ flagTerm t r ≤ 1 / 5 := by
  unfold flagTerm
  rcases t.has_flags with _ | _
  · norm_num
  · rcases isArtifact r.flags with _ | _ <;> norm_num

theorem obsTerm_bounds (t : CombinedTable) (r : CandidateRow) (hr : r ∈ t.rows) :
    0 ≤ obsTerm t r ∧ obsTerm t r ≤ 1 / 10 := by
  have h := obsRatio_bounds t.rows r hr
  unfold obsTerm
  rcases t.has_obs_id with _ | _
  · norm_num
  · norm_num
    constructor <;> linarith [h.1, h.2]

/-- Claim C3: with flags and obs_id columns present, the composite score of
every combined row is the fixed-weight combination
0.4 * normalised anomaly + 0.3 * normalised SNR (0 without an SNR column)
+ 0.2 * artifact-free indicator + 0.1 * obs_id count over maximum count,
and it lies in [0, 1]. -/
theorem composite_score_spec (t : CombinedTable) (r : CandidateRow)
    (hr : r ∈ t.rows) (hf : t.has_flags = true) (ho : t.has_obs_id = true) :
    compositeScore t r =
      (2 / 5 : ℚ) * anomalyNorm t r
        + (3 / 10 : ℚ) *
          (if t.has_snr then snrNorm (t.rows.map CandidateRow.snr) r.snr
           else if t.has_max_line_snr then
             snrNorm (t.rows.map CandidateRow.max_line_snr) r.max_line_snr
           else 0)
        + (1 / 5 : ℚ) * (if isArtifact r.flags then 0 else 1)
        + (1 / 10 : ℚ) * ((obsCount t.rows r.obs_id : ℚ) / (maxObsCount t.rows : ℚ))
      ∧ 0 ≤ compositeScore t r ∧ compositeScore t r ≤ 1 := by
  have ha := anomalyNorm_bounds t r hr
  have hs := snrTerm_bounds t r hr
  have hfb := flagTerm_bounds t r
  have hob := obsTerm_bounds t r hr
  have hanom : 0 ≤ anomalyTerm t r ∧ anomalyTerm t r ≤ 2 / 5 := by
    unfold anomalyTerm; constructor <;> linarith [ha.1, ha.2]
  refine ⟨?_, by unfold compositeScore; linarith [hanom.1, hs.1, hfb.1, hob.1],
    by unfold compositeScore; linarith [hanom.2, hs.2, hfb.2, hob.2]⟩
  unfold compositeScore anomalyTerm snrTerm flagTerm obsTerm
  rw [hf, ho]
  rcases t.has_snr with _ | _ <;> rcases t.has_max_line_snr with _ | _ <;>
    rcases isArtifact r.flags with _ | _ <;> simp <;> ring

/-- A sample table for the witnesses: one image row joined with one spectrum
row, with all optional columns present except max_line_snr. -/
def sampleTable : CombinedTable :=
  { rows := [⟨1, 2, 0, "none", "obs1"⟩, ⟨3, 5, 0, "border;low_snr", "obs1"⟩],
    has_anomaly_score := true, has_snr := true, has_max_line_snr := false,
    has_flags := true, has_obs_id := true }

/-- Claim C3, witness: the composite-score formula and bounds evaluated on a
concrete two-row table. -/
theorem composite_score_spec_witness :
    0 ≤ compositeScore sampleTable ⟨1, 2, 0, "none", "obs1"⟩ ∧
      compositeScore sampleTable ⟨1, 2, 0, "none", "obs1"⟩ ≤ 1 :=
  (composite_score_spec sampleTable ⟨1, 2, 0, "none", "obs1"⟩ (by decide) rfl rfl).2

/-- Claim C4: the three normalisation cases for anomaly scores: strict range
gives the linear map onto [0, 1] sending the minimum to 0 and the maximum
to 1; an all-equal batch gives 0.5 everywhere; a missing column gives 0.0. -/
theorem anomaly_norm_cases (t : CombinedTable) (r : CandidateRow) (hr : r ∈ t.rows) :
    (t.has_anomaly_score = true →
      (seriesMin (t.rows.map CandidateRow.anomaly_score) <
          seriesMax (t.rows.map CandidateRow.anomaly_score) →
        anomalyNorm t r =
          (r.anomaly_score - seriesMin (t.rows.map CandidateRow.anomaly_score)) /
            (seriesMax (t.rows.map CandidateRow.anomaly_score) -
              seriesMin (t.rows.map CandidateRow.anomaly_score))
        ∧ (r.anomaly_score = seriesMin (t.rows.map CandidateRow.anomaly_score) →
            anomalyNorm t r = 0)
        ∧ (r.anomaly_score = seriesMax (t.rows.map CandidateRow.anomaly_score) →
            anomalyNorm t r = 1)
        ∧ 0 ≤ anomalyNorm t r ∧ anomalyNorm t r ≤ 1)
      ∧ ((∀ x ∈ t.rows.map CandidateRow.anomaly_score,
            ∀ y ∈ t.rows.map CandidateRow.anomaly_score, x = y) →
          anomalyNorm t r = 1 / 2))
    ∧ (t.has_anomaly_score = false → anomalyNorm t r = 0) := by
  have hmem : r.anomaly_score ∈ t.rows.map CandidateRow.anomaly_score :=
    List.mem_map_of_mem _ hr
  refine ⟨fun htrue => ⟨fun hlt => ?_, fun hall => ?_⟩, fun hfalse => ?_⟩
  · have hform : anomalyNorm t r =
        (r.anomaly_score - seriesMin (t.rows.map CandidateRow.anomaly_score)) /
          (seriesMax (t.rows.map CandidateRow.anomaly_score) -
            seriesMin (t.rows.map CandidateRow.anomaly_score)) := by
      unfold anomalyNorm; rw [htrue, if_pos hlt]; simp
    have hpos : (0 : ℚ) < seriesMax (t.rows.map CandidateRow.anomaly_score) -
        seriesMin (t.rows.map CandidateRow.anomaly_score) := by linarith
    refine ⟨hform, fun hmin => ?_, fun hmax => ?_, (anomalyNorm_bounds t r hr).1,
      (anomalyNorm_bounds t r hr).2⟩
    · rw [hform, hmin, sub_self, zero_div]
    · rw [hform, hmax, div_self (ne_of_gt hpos)]
  · have heq : seriesMin (t.rows.map CandidateRow.anomaly_score) =
        seriesMax (t.rows.map CandidateRow.anomaly_score) := by
      have hne : t.rows.map CandidateRow.anomaly_score ≠ [] := by
        intro h; rw [h] at hmem; cases hmem
      exact hall _ (seriesMin_mem _ hne) _ (seriesMax_mem _ hne)
    unfold anomalyNorm
    rw [htrue]
    simp [heq]
  · unfold anomalyNorm; rw [hfalse]; simp

/-- Claim C4, witness: the all-equal batch of the sample spectra table and a
strict-range batch both evaluated concretely through the case theorem. -/
theorem anomaly_norm_cases_witness :
    anomalyNorm sampleTable ⟨1, 2, 0, "none", "obs1"⟩ = 0 ∧
      anomalyNorm sampleTable ⟨1, 2, 0, "none", "obs1"⟩ =
        (1 - seriesMin (sampleTable.rows.map CandidateRow.anomaly_score)) /
          (seriesMax (sampleTable.rows.map CandidateRow.anomaly_score) -
            seriesMin (sampleTable.rows.map CandidateRow.anomaly_score)) := by
  have h := anomaly_norm_cases sampleTable ⟨1, 2, 0, "none", "obs1"⟩ (by decide)
  have hcase := (h.1 rfl).1 (by decide)
  exact ⟨hcase.2.1 (by decide), hcase.1⟩

/-- One row of ranked_candidates.csv as far as the ranking claim reads it:
the rank column, the composite score and the underlying candidate row. -/
structure RankedRow where
  rank : ℕ
  composite_score : ℚ
  row : CandidateRow
  deriving Repr, DecidableEq

/-- The keyword parameters of pandas.DataFrame.sort_values. -/
def sortValuesKeywords : List String :=
  ["by", "axis", "ascending", "inplace", "kind", "na_position", "ignore_index", "key"]

/-- Modelled foreign call: python raises TypeError when a call passes a
keyword argument outside the signature of pandas sort_values; otherwise the
frame is sorted by the key, descending here (ascending=False). -/
def sortValuesDesc {α : Type} (kwargs : List String) (key : α → ℚ) (rows : List α) :
    Except String (List α) :=
  match kwargs.find? fun k => !(sortValuesKeywords.contains k) with
  | some k => .error ("TypeError: sort_values() got an unexpected keyword argument " ++ k)
  | none => .ok (sortDesc key rows)

/-- `pd.concat` of the candidate tables that were loaded: rows appended, the
column set the union of the two column sets. -/
def combineCandidates : Option CombinedTable → Option CombinedTable → CombinedTable
  | none, none => ⟨[], false, false, false, false, false⟩
  | some t, none => t
  | none, some t => t
  | some t1, some t2 =>
    ⟨t1.rows ++ t2.rows,
     t1.has_anomaly_score || t2.has_anomaly_score,
     t1.has_snr || t2.has_snr,
     t1.has_max_line_snr || t2.has_max_line_snr,
     t1.has_flags || t2.has_flags,
     t1.has_obs_id || t2.has_obs_id⟩

/-- `rank_candidates`: an input is `none` when its candidate CSV does not
exist.  With neither file the function returns False; otherwise it combines
the tables, computes composite scores and reaches the source line
`combined.sort_values("composite_score", ascending=False, na_last=True)`.
`na_last` is not a keyword of pandas sort_values (the keyword is
`na_position`), so the modelled call raises TypeError; on the unreached ok
path the rows would carry ranks 1..n in sorted order and True is returned. -/
def rank_candidates (image spectra : Option CombinedTable) :
    Except String (List RankedRow × Bool) :=
  match image, spectra with
  | none, none => .ok ([], false)
  | _, _ =>
    let combined := combineCandidates image spectra
    let scored := combined.rows.map fun r => (r, compositeScore combined r)
    match sortValuesDesc ["ascending", "na_last"] Prod.snd scored with
    | .error e => .error e
    | .ok sorted =>
      .ok (sorted.enum.map fun p => ⟨p.1 + 1, p.2.2, p.2.1⟩, true)

/-- Claim C1 (code bug): whenever at least one candidate CSV exists, the
ranking pipeline raises TypeError at the sort step, because `na_last` is not
a keyword of pandas sort_values; no ranked rows are written and True is
never returned. -/
theorem rank_candidates_raises (image spectra : Option CombinedTable)
    (h : image ≠ none ∨ spectra ≠ none) :
    rank_candidates image spectra =
      .error ("TypeError: sort_values() got an unexpected keyword argument na_last") := by
  match image, spectra with
  | none, none => rcases h with h | h <;> exact absurd rfl h
  | some t, none => rfl
  | none, some t => rfl
  | some t1, some t2 => rfl

/-- Claim C1, witness: the TypeError observed on a concrete run where only the
image candidates file exists. -/
theorem rank_candidates_raises_witness :
    rank_candidates (some sampleTable) none =
      .error ("TypeError: sort_values() got an unexpected keyword argument na_last") :=
  rank_candidates_raises (some sampleTable) none (Or.inl (by simp))

end Rank

/-! ## scripts/02_analyze_images.py -/

namespace Images

/-- The constant scipy.stats.median_abs_deviation divides by for
scale="normal": the float64 value of the normal quartile norm.ppf(0.75). -/
def normPpf075 : ℚ := 6744897501960817 / 10000000000000000

/-- scipy.stats.median_abs_deviation(sample, scale="normal"). -/
def median_abs_deviation (l : List ℚ) : ℚ :=
  npMedian (l.map fun v => |v - npMedian l|) / normPpf075

/-- `sample[np.isfinite(sample)]`: the finite entries of a flattened array. -/
def finiteValues (data : List (Option ℚ)) : List ℚ := data.filterMap id

/-- `robust_background`: for arrays over 10^7 elements the source first draws
a 10^6-element subsample with np.random.choice (the draw is the `choose`
parameter of the embedding); non-finite entries are then dropped; an empty
remainder yields the fallback (0.0, 1.0), otherwise the median and the
scale-normal MAD of the remainder are returned. -/
def robust_background (choose : List (Option ℚ) → List (Option ℚ))
    (data : List (Option ℚ)) : ℚ × ℚ :=
  let sample := if 10000000 < data.length then choose data else data
  let finite := finiteValues sample
  if finite.length = 0 then (0, 1)
  else (npMedian finite, median_abs_deviation finite)

/-- The `snr` entry of compute_morphology_metrics: peak over background rms
when the rms is strictly positive, else 0.0. -/
def morphology_snr (peak background_rms : ℚ) : ℚ :=
  if 0 < background_rms then peak / background_rms else 0

/-- Claim C10 (amended): on arrays of at most 10^7 elements
robust_background returns (0.0, 1.0) exactly when no finite value exists and
the finite-sample median and scale-normal MAD otherwise; on larger arrays the
same statistics are computed on the drawn 10^6-element subsample; and the
morphology SNR is 0.0 whenever the background rms is not strictly positive,
so the division is always guarded. -/
theorem robust_background_spec (choose : List (Option ℚ) → List (Option ℚ))
    (data : List (Option ℚ)) (peak rms : ℚ) :
    (data.length ≤ 10000000 →
      (finiteValues data = [] → robust_background choose data = (0, 1)) ∧
      (finiteValues data ≠ [] →
        robust_background choose data =
          (npMedian (finiteValues data), median_abs_deviation (finiteValues data)))) ∧
    (10000000 < data.length →
      robust_background choose data =
        (if (finiteValues (choose data)).length = 0 then ((0 : ℚ), (1 : ℚ))
         else (npMedian (finiteValues (choose data)),
               median_abs_deviation (finiteValues (choose data))))) ∧
    (¬ 0 < rms → morphology_snr peak rms = 0) ∧
    (0 < rms → morphology_snr peak rms = peak / rms) := by
  refine ⟨fun hsmall => ⟨fun hempty => ?_, fun hne => ?_⟩, fun hbig => ?_, fun hn => ?_, fun hp => ?_⟩
  · have hgt : ¬ 10000000 < data.length := by omega
    simp only [robust_background]
    rw [if_neg hgt, hempty]
    simp
  · have hgt : ¬ 10000000 < data.length := by omega
    have hlen : ¬ (finiteValues data).length = 0 := by
      simpa [List.length_eq_zero] using hne
    simp only [robust_background]
    rw [if_neg hgt, if_neg hlen]
  · simp only [robust_background]
    rw [if_pos hbig]
  · unfold morphology_snr; rw [if_neg hn]
  · unfold morphology_snr; rw [if_pos hp]

/-- Claim C10, witness: the amended statement evaluated on a small concrete
array with a non-finite entry and on a zero rms. -/
theorem robust_background_spec_witness :
    robust_background id [some 2, none, some 4] =
      (npMedian (finiteValues [some 2, none, some 4]),
        median_abs_deviation (finiteValues [some 2, none, some 4])) ∧
      morphology_snr 5 0 = 0 :=
  ⟨((robust_background_spec id [some 2, none, some 4] 5 0).1 (by decide)).2 (by decide),
    (robust_background_spec id [some 2, none, some 4] 5 0).2.2.1 (by norm_num)⟩

/-- A concrete possible np.random.choice draw: the first 10^6 entries. -/
def takeMillion (data : List (Option ℚ)) : List (Option ℚ) := data.take 1000000

/-- A concrete flattened array of 10000001 elements: 10^6 ones before
9000001 zeros, every entry finite. -/
def bigArray : List (Option ℚ) :=
  List.replicate 1000000 (some 1) ++ List.replicate 9000001 (some 0)

theorem filterMap_id_replicate_some (n : ℕ) (a : ℚ) :
    (List.replicate n (some a)).filterMap id = List.replicate n a := by
  induction n with
  | zero => rfl
  | succ n ih => simp [List.replicate_succ, ih]

theorem sortAsc_of_sorted (l : List ℚ) (h : l.Sorted (· ≤ ·)) : sortAsc l = l :=
  List.eq_of_perm_of_sorted (perm_sortAsc l) (sorted_sortAsc l) h

theorem bigArray_finite :
    finiteValues bigArray = List.replicate 1000000 1 ++ List.replicate 9000001 0 := by
  unfold finiteValues bigArray
  rw [List.filterMap_append, filterMap_id_replicate_some, filterMap_id_replicate_some]

theorem bigArray_length : bigArray.length = 10000001 := by
  unfold bigArray
  rw [List.length_append, List.length_replicate, List.length_replicate]

/-- Claim C10, counterexample: on an array of 10000001 finite elements the
source computes the median of a random 10^6-element subsample, not the
finite-sample median: the draw consisting of the first 10^6 entries returns
median 1 while the finite-sample median is 0. -/
theorem robust_background_subsample_counterexample :
    robust_background takeMillion bigArray ≠
      (npMedian (finiteValues bigArray),
        median_abs_deviation (finiteValues bigArray)) := by
  have hchoose : takeMillion bigArray = List.replicate 1000000 (some 1) := by
    unfold takeMillion bigArray
    exact List.take_left' (by rw [List.length_replicate])
  have hsubfin : finiteValues (takeMillion bigArray) = List.replicate 1000000 1 := by
    rw [hchoose]; exact filterMap_id_replicate_some 1000000 1
  have hsubmed : npMedian (finiteValues (takeMillion bigArray)) = 1 := by
    rw [hsubfin]
    unfold npMedian
    rw [sortAsc_of_sorted _ (sorted_replicate 1000000 1)]
    rw [List.length_replicate]
    rw [if_neg (by norm_num)]
    rw [getD_replicate _ _ _ _ (by norm_num), getD_replicate _ _ _ _ (by norm_num)]
    norm_num
  have hfullmed : npMedian (finiteValues bigArray) = 0 := by
    rw [bigArray_finite]
    unfold npMedian
    have hperm : List.Perm
        (sortAsc (List.replicate 1000000 1 ++ List.replicate 9000001 (0 : ℚ)))
        (List.replicate 9000001 (0 : ℚ) ++ List.replicate 1000000 1) :=
      List.Perm.trans (perm_sortAsc _) List.perm_append_comm
    have hsorted : (List.replicate 9000001 (0 : ℚ) ++
        List.replicate 1000000 (1 : ℚ)).Sorted (· ≤ ·) := by
      refine List.pairwise_append.2 ⟨sorted_replicate _ _, sorted_replicate _ _, ?_⟩
      intro x hx y hy
      rw [List.eq_of_mem_replicate hx, List.eq_of_mem_replicate hy]
      norm_num
    have hsort : sortAsc (List.replicate 1000000 1 ++ List.replicate 9000001 (0 : ℚ)) =
        List.replicate 9000001 (0 : ℚ) ++ List.replicate 1000000 1 :=
      List.eq_of_perm_of_sorted hperm (sorted_sortAsc _) hsorted
    rw [hsort]
    rw [List.length_append, List.length_replicate, List.length_replicate]
    rw [if_pos (by norm_num)]
    have hidx : (1000000 + 9000001) / 2 = 5000000 := by norm_num
    rw [hidx]
    rw [List.getD_eq_getElem?_getD]
    rw [List.getElem?_append_left (by rw [List.length_replicate]; norm_num)]
    rw [← List.getD_eq_getElem?_getD]
    rw [getD_replicate _ _ _ _ (by norm_num)]
  have hne : ¬ (finiteValues (takeMillion bigArray)).length = 0 := by
    rw [hsubfin, List.length_replicate]; norm_num
  have hbig : 10000000 < bigArray.length := by rw [bigArray_length]; norm_num
  have hrb : robust_background takeMillion bigArray =
      (npMedian (finiteValues (takeMillion bigArray)),
        median_abs_deviation (finiteValues (takeMillion bigArray))) := by
    simp only [robust_background]
    rw [if_pos hbig, if_neg hne]
  intro h
  have h2 := hrb.symm.trans h
  rw [Prod.mk.injEq] at h2
  have h3 := h2.1
  rw [hsubmed, hfullmed] at h3
  exact one_ne_zero h3

/-- The per-source row fields that flag_artifacts reads; analyze_images
always fills these keys, so the `row.get` defaults of the source are dead. -/
structure SourceRow where
  x : ℚ
  y : ℚ
  eccentricity : ℚ
  snr : ℚ
  has_nan : Bool
  deriving Repr, DecidableEq

/-- The `analysis` entries of config.yaml that flag_artifacts consults. -/
structure AnalysisConfig where
  border_pixels : ℚ
  max_ellipticity : ℚ
  min_snr : ℚ
  deriving Repr, DecidableEq

/-- `flag_artifacts(row, data_shape, config)` on an image of height `h` and
width `w`: append the label of each condition that holds, join the labels
with ";", and return "none" when no label was collected. -/
def flag_artifacts (row : SourceRow) (h w : ℚ) (cfg : AnalysisConfig) : String :=
  let flags : List String :=
    (if row.x < cfg.border_pixels ∨ row.x > w - cfg.border_pixels ∨
        row.y < cfg.border_pixels ∨ row.y > h - cfg.border_pixels
     then ["border"] else [])
    ++ (if row.eccentricity > cfg.max_ellipticity then ["high_ellipticity"] else [])
    ++ (if row.has_nan then ["has_nan"] else [])
    ++ (if row.snr < cfg.min_snr then ["low_snr"] else [])
  if flags = [] then "none" else String.intercalate ";" flags

/-- Claim C8: flag_artifacts returns "none" exactly when none of the four
artifact conditions holds, and otherwise returns the ";"-joined labels of
exactly the conditions that hold, in the fixed order border,
high_ellipticity, has_nan, low_snr. -/
theorem flag_artifacts_spec (row : SourceRow) (h w : ℚ) (cfg : AnalysisConfig) :
    (flag_artifacts row h w cfg = "none" ↔
      ¬ (row.x < cfg.border_pixels ∨ row.x > w - cfg.border_pixels ∨
          row.y < cfg.border_pixels ∨ row.y > h - cfg.border_pixels) ∧
      ¬ row.eccentricity > cfg.max_ellipticity ∧
      row.has_nan = false ∧
      ¬ row.snr < cfg.min_snr) ∧
    (((row.x < cfg.border_pixels ∨ row.x > w - cfg.border_pixels ∨
        row.y < cfg.border_pixels ∨ row.y > h - cfg.border_pixels) ∨
      row.eccentricity > cfg.max_ellipticity ∨ row.has_nan = true ∨
      row.snr < cfg.min_snr) →
      flag_artifacts row h w cfg = String.intercalate ";"
        ((if row.x < cfg.border_pixels ∨ row.x > w - cfg.border_pixels ∨
            row.y < cfg.border_pixels ∨ row.y > h - cfg.border_pixels
          then ["border"] else [])
        ++ (if row.eccentricity > cfg.max_ellipticity then ["high_ellipticity"] else [])
        ++ (if row.has_nan then ["has_nan"] else [])
        ++ (if row.snr < cfg.min_snr then ["low_snr"] else []))) := by
  by_cases h1 : row.x < cfg.border_pixels ∨ row.x > w - cfg.border_pixels ∨
      row.y < cfg.border_pixels ∨ row.y > h - cfg.border_pixels <;>
    by_cases h2 : row.eccentricity > cfg.max_ellipticity <;>
    rcases hn : row.has_nan with _ | _ <;>
    by_cases h4 : row.snr < cfg.min_snr <;>
    simp [flag_artifacts, h1, h2, hn, h4] <;>
    decide

end Images

/-! ## sklearn.ensemble.IsolationForest, as the two analyzers use it -/

namespace Iso

/-- The sklearn IsolationForest estimator: hyperparameters plus the fitted
model, of which only presence or absence matters here.  `Model` abstracts the
learned forest; the fitting and scoring cores are parameters of the
embedding. -/
structure IsolationForest (Model : Type) where
  contamination : ℚ
  random_state : ℕ
  fitted : Option Model

/-- `IsolationForest(contamination=..., random_state=...)`: a fresh, unfitted
estimator. -/
def mkIsolationForest (Model : Type) (contamination : ℚ) (random_state : ℕ) :
    IsolationForest Model :=
  ⟨contamination, random_state, none⟩

/-- `fit_predict(X)`: fit the estimator on X, then return the -1/1 labels. -/
def fitPredict {Model : Type} (fitCore : List (List ℚ) → Model)
    (predictCore : Model → List ℚ → Int)
    (f : IsolationForest Model) (X : List (List ℚ)) :
    IsolationForest Model × List Int :=
  let m := fitCore X
  ({ f with fitted := some m }, X.map (predictCore m))

/-- `score_samples(X)`: sklearn raises when the estimator was never
fitted, and otherwise scores each sample with the fitted model. -/
def scoreSamples {Model : Type} (scoreCore : Model → List ℚ → ℚ)
    (f : IsolationForest Model) (X : List (List ℚ)) : Except String (List ℚ) :=
  match f.fitted with
  | none => .error ("NotFittedError: this IsolationForest instance is not fitted yet")
  | some m => .ok (X.map (scoreCore m))

end Iso

namespace Images

/-- The anomaly block of analyze_images for one image batch (entered when the
batch holds more than 10 sources): construct the estimator, fit it on the
batch feature matrix through fit_predict, score the same matrix with
score_samples, and negate each score. -/
def image_anomaly_scores {Model : Type} (fitCore : List (List ℚ) → Model)
    (predictCore : Model → List ℚ → Int) (scoreCore : Model → List ℚ → ℚ)
    (contamination : ℚ) (random_state : ℕ)
    (feature_data : List (List ℚ)) : Except String (List ℚ) :=
  let iso_forest := Iso.mkIsolationForest Model contamination random_state
  let fitRes := Iso.fitPredict fitCore predictCore iso_forest feature_data
  match Iso.scoreSamples scoreCore fitRes.1 feature_data with
  | .error e => .error e
  | .ok scores => .ok (scores.map fun s => -s)

/-- The image batch path conforms to the claim: the model is fitted on the
batch and every anomaly score is the negated sample score of that fitted
model. -/
theorem image_anomaly_scores_fits_batch {Model : Type}
    (fitCore : List (List ℚ) → Model) (predictCore : Model → List ℚ → Int)
    (scoreCore : Model → List ℚ → ℚ) (contamination : ℚ) (random_state : ℕ)
    (feature_data : List (List ℚ)) :
    image_anomaly_scores fitCore predictCore scoreCore contamination random_state
        feature_data =
      .ok (feature_data.map fun x => -(scoreCore (fitCore feature_data) x)) := by
  simp [image_anomaly_scores, Iso.fitPredict, Iso.scoreSamples, Iso.mkIsolationForest]

end Images

/-! ## scripts/03_analyze_spectra.py -/

namespace Spectra

/-- The spectra anomaly block of analyze_spectra (entered when more than 5
spectra produced feature rows): the source constructs
IsolationForest(contamination=0.2, random_state=...) and calls score_samples
on it without ever fitting it, then negates the scores. -/
def spectra_anomaly_scores {Model : Type} (scoreCore : Model → List ℚ → ℚ)
    (random_state : ℕ) (feature_data : List (List ℚ)) : Except String (List ℚ) :=
  let iso_forest := Iso.mkIsolationForest Model (1 / 5) random_state
  match Iso.scoreSamples scoreCore iso_forest feature_data with
  | .error e => .error e
  | .ok scores => .ok (scores.map fun s => -s)

/-- Claim C2 (code bug): the spectra path never fits the isolation forest:
score_samples is called on the fresh estimator, so a batch of 6 spectra
raises instead of being scored by a model fitted on that batch. -/
theorem spectra_anomaly_scores_not_fitted :
    @spectra_anomaly_scores Unit (fun _ _ => 0) 42
        [[1], [2], [3], [4], [5], [6]] =
      .error ("NotFittedError: this IsolationForest instance is not fitted yet") := rfl

/-- The outcome of processing one manifest file inside the per-file
try/except: either the feature row of the spectrum or a raised exception. -/
inductive FileOutcome (α : Type) where
  | ok (a : α)
  | exn (e : String)
  deriving Repr, DecidableEq

/-- The manifest loop of analyze_spectra: a file whose processing raises is
logged and skipped; the feature rows of the successful files are kept in
order. -/
def processFiles {α : Type} (files : List (FileOutcome α)) : List α :=
  files.foldr (fun f acc => match f with | .ok a => a :: acc | .exn _ => acc) []

/-- `analyze_spectra`: a missing manifest returns False; otherwise each file
is processed under the per-file try/except, and when more than 5 feature rows
were collected the anomaly block runs after the loop, outside any
try/except, so its exception propagates out of the stage function. -/
def analyze_spectra {Model : Type} (scoreCore : Model → List ℚ → ℚ)
    (random_state : ℕ)
    (manifest : Option (List (FileOutcome (List ℚ)))) : Except String Bool :=
  match manifest with
  | none => .ok false
  | some files =>
    let features := processFiles files
    if 5 < features.length then
      match spectra_anomaly_scores scoreCore random_state features with
      | .error e => .error e
      | .ok _ => .ok true
    else .ok true

/-- Claim C9 (code bug): a run of analyze_spectra over a manifest in which
one file raises and six succeed skips the bad file as claimed, but then the
stage function itself propagates the NotFittedError of the unfitted
isolation forest instead of returning a boolean. -/
theorem analyze_spectra_propagates_exception :
    @analyze_spectra Unit (fun _ _ => 0) 42
        (some [.ok [1], .exn "bad file", .ok [2], .ok [3], .ok [4], .ok [5], .ok [6]]) =
      .error ("NotFittedError: this IsolationForest instance is not fitted yet") := rfl

/-- Rightward scan of a plateau (scipy _local_maxima_1d): from index `i`,
advance while the index is below `stop` (= n - 1) and the value still equals
`v`; `fuel` bounds the scan and is always large enough in use. -/
def plateauEnd (g : ℕ → ℚ) (v : ℚ) (stop : ℕ) : ℕ → ℕ → ℕ
  | i, 0 => i
  | i, fuel + 1 => if i < stop ∧ g i = v then plateauEnd g v stop (i + 1) fuel else i

/-- scipy.signal._local_maxima_1d: the midpoints of the maximal plateaus that
are strictly above both neighbouring samples; edges never qualify. -/
def localMaxima (x : List ℚ) : List ℕ :=
  let n := x.length
  let g := fun i => x.getD i 0
  (List.range n).filterMap fun i =>
    if 1 ≤ i ∧ i + 1 ≤ n - 1 ∧ g (i - 1) < g i then
      let j := plateauEnd g (g i) (n - 1) (i + 1) n
      if g j < g i then some ((i + (j - 1)) / 2) else none
    else none

/-- One run of the suppression loop of scipy _select_by_peak_distance: the
peaks are visited from highest to lowest priority; a peak still kept removes
every other kept peak closer than `distance` samples. -/
def suppressClose (distance : ℕ) : List ℕ → List ℕ → List ℕ
  | kept, [] => kept
  | kept, j :: order =>
    if j ∈ kept then
      suppressClose distance
        (kept.filter fun k => decide (k = j) || decide (distance ≤ Int.natAbs ((k : ℤ) - (j : ℤ))))
        order
    else suppressClose distance kept order

/-- scipy _select_by_peak_distance: suppression processed in order of
decreasing priority (the sample height at each peak), survivors returned in
their original order. -/
def selectByPeakDistance (g : ℕ → ℚ) (distance : ℕ) (peaks : List ℕ) : List ℕ :=
  suppressClose distance peaks (sortDesc g peaks)

/-- Leftward scan of scipy _peak_prominences: the running minimum moving left
from the peak until the border or a sample strictly above the peak. -/
def promLeft (g : ℕ → ℚ) (v : ℚ) : ℕ → ℚ → ℚ
  | 0, m => m
  | i + 1, m => if g (i + 1) ≤ v then promLeft g v i (min m (g i)) else m

/-- Rightward scan of scipy _peak_prominences, bounded by `last` (= n - 1). -/
def promRight (g : ℕ → ℚ) (v : ℚ) (last : ℕ) : ℕ → ℚ → ℕ → ℚ
  | _, m, 0 => m
  | i, m, fuel + 1 =>
    if i < last ∧ g i ≤ v then promRight g v last (i + 1) (min m (g (i + 1))) fuel else m

/-- scipy _peak_prominences with wlen unset: the peak height above the higher
of the two base minima. -/
def prominence (g : ℕ → ℚ) (n : ℕ) (p : ℕ) : ℚ :=
  g p - max (promLeft g (g p) p (g p)) (promRight g (g p) (n - 1) p (g p) n)

/-- scipy.signal.find_peaks(x, height=h, distance=d, prominence=pr): local
maxima, the height filter, distance selection, then the prominence filter,
in the order scipy evaluates the conditions. -/
def find_peaks (x : List ℚ) (height : ℚ) (distance : ℕ) (prom : ℚ) : List ℕ :=
  let g := fun i => x.getD i 0
  let peaks1 := (localMaxima x).filter fun p => decide (height ≤ g p)
  let peaks2 := selectByPeakDistance g distance peaks1
  peaks2.filter fun p => decide (prom ≤ prominence g x.length p)

/-- np.trapz over sample points: the trapezoid rule on consecutive pairs. -/
def trapz : List ℚ → List ℚ → ℚ
  | y0 :: y1 :: ys, x0 :: x1 :: xs => (x1 - x0) * (y0 + y1) / 2 + trapz (y1 :: ys) (x1 :: xs)
  | _, _ => 0

/-- One detected emission line as detect_emission_lines records it. -/
structure EmissionLine where
  wavelength : ℚ
  amplitude : ℚ
  width : ℚ
  snr : ℚ
  equivalent_width : ℚ
  peak_index : ℕ
  deriving Repr, DecidableEq, Inhabited

/-- The continuum-subtracted SNR spectrum of detect_emission_lines:
(flux - savgol-smoothed flux) / (error + 1e-10); the smoothing filter is the
`sg` parameter of the embedding. -/
def snrSpectrumOf (sg : List ℚ → List ℚ) (flux error : List ℚ) : List ℚ :=
  List.zipWith (fun fs e => fs / (e + 1 / 10000000000))
    (List.zipWith (fun f c => f - c) flux (sg flux)) error

/-- The body of the peak loop of detect_emission_lines: slice the 40-sample
fit window around the peak, skip the peak when the window holds fewer than 5
samples; a successful Gaussian fit (the `fit` parameter; `none` models a
curve_fit exception) yields the fitted parameters and the equivalent width,
a failed fit the fallback values; either way the recorded snr is the SNR
spectrum at the peak index. -/
def mkLine (sg : List ℚ → List ℚ)
    (fit : List ℚ → List ℚ → ℚ × ℚ × ℚ → Option (ℚ × ℚ × ℚ))
    (wavelength flux error : List ℚ) (peak_idx : ℕ) : Option EmissionLine :=
  let continuum := sg flux
  let flux_subtracted := List.zipWith (fun f c => f - c) flux continuum
  let snr_spectrum := snrSpectrumOf sg flux error
  let start_idx := peak_idx - 20
  let end_idx := min wavelength.length (peak_idx + 20)
  let wl_fit := (wavelength.drop start_idx).take (end_idx - start_idx)
  let flux_fit := (flux_subtracted.drop start_idx).take (end_idx - start_idx)
  if wl_fit.length < 5 then none
  else
    match fit wl_fit flux_fit
        (flux_subtracted.getD peak_idx 0, wavelength.getD peak_idx 0, (1 : ℚ) / 100) with
    | some (amp, mean, sd) =>
      let line_flux := trapz flux_fit wl_fit
      let continuum_level := npMedian ((continuum.drop start_idx).take (end_idx - start_idx))
      let eq_width := if 0 < continuum_level then line_flux / continuum_level else 0
      some ⟨mean, amp, |sd|, snr_spectrum.getD peak_idx 0, eq_width, peak_idx⟩
    | none =>
      some ⟨wavelength.getD peak_idx 0, flux_subtracted.getD peak_idx 0, 1 / 100,
        snr_spectrum.getD peak_idx 0, 0, peak_idx⟩

/-- `detect_emission_lines`: find peaks of the SNR spectrum with
height = prominence = snr_threshold and distance 5, then run the peak loop. -/
def detect_emission_lines
    (sg : List ℚ → List ℚ)
    (fit : List ℚ → List ℚ → ℚ × ℚ × ℚ → Option (ℚ × ℚ × ℚ))
    (wavelength flux error : List ℚ) (snr_threshold : ℚ) : List EmissionLine :=
  (find_peaks (snrSpectrumOf sg flux error) snr_threshold 5 snr_threshold).filterMap
    (mkLine sg fit wavelength flux error)

theorem plateauEnd_spec (g : ℕ → ℚ) (v : ℚ) (stop : ℕ) :
    ∀ fuel start, start ≤ stop → stop ≤ start + fuel →
      start ≤ plateauEnd g v stop start fuel ∧
      plateauEnd g v stop start fuel ≤ stop ∧
      (plateauEnd g v stop start fuel = stop ∨ ¬ g (plateauEnd g v stop start fuel) = v) ∧
      (∀ k, start ≤ k → k < plateauEnd g v stop start fuel → g k = v) := by
  intro fuel
  induction fuel with
  | zero =>
    intro start h1 h2
    have hss : start = stop := by omega
    unfold plateauEnd
    exact ⟨le_refl _, h1, Or.inl hss, fun k hk1 hk2 => by omega⟩
  | succ fuel ih =>
    intro start h1 h2
    unfold plateauEnd
    by_cases hc : start < stop ∧ g start = v
    · rw [if_pos hc]
      obtain ⟨hlt, hv⟩ := hc
      obtain ⟨ha, hb, hcc, hd⟩ := ih (start + 1) (by omega) (by omega)
      refine ⟨by omega, hb, hcc, fun k hk1 hk2 => ?_⟩
      rcases Nat.eq_or_lt_of_le hk1 with rfl | hk
      · exact hv
      · exact hd k (by omega) hk2
    · rw [if_neg hc]
      push_neg at hc
      refine ⟨le_refl _, h1, ?_, fun k hk1 hk2 => by omega⟩
      by_cases hlt : start < stop
      · exact Or.inr (hc hlt)
      · exact Or.inl (by omega)

theorem localMaxima_spec (x : List ℚ) (m : ℕ) (hm : m ∈ localMaxima x) :
    1 ≤ m ∧ m + 2 ≤ x.length ∧
      x.getD (m - 1) 0 ≤ x.getD m 0 ∧ x.getD (m + 1) 0 ≤ x.getD m 0 := by
  unfold localMaxima at hm
  rw [List.mem_filterMap] at hm
  obtain ⟨i, _, hi⟩ := hm
  by_cases hcond : 1 ≤ i ∧ i + 1 ≤ x.length - 1 ∧ x.getD (i - 1) 0 < x.getD i 0
  swap
  · rw [if_neg hcond] at hi; cases hi
  rw [if_pos hcond] at hi
  obtain ⟨h1i, h2i, h3i⟩ := hcond
  by_cases hj2 : x.getD (plateauEnd (fun k => x.getD k 0) (x.getD i 0) (x.length - 1)
      (i + 1) x.length) 0 < x.getD i 0
  swap
  · rw [if_neg hj2] at hi; cases hi
  rw [if_pos hj2] at hi
  obtain ⟨hja, hjb, _, hplat⟩ := plateauEnd_spec (fun k => x.getD k 0) (x.getD i 0)
    (x.length - 1) x.length (i + 1) (by omega) (by omega)
  set j := plateauEnd (fun k => x.getD k 0) (x.getD i 0) (x.length - 1) (i + 1) x.length
    with hjdef
  have hmeq : (i + (j - 1)) / 2 = m := by
    have := Option.some.inj hi
    omega
  have hval : ∀ k, i ≤ k → k ≤ j - 1 → x.getD k 0 = x.getD i 0 := by
    intro k hk1 hk2
    rcases Nat.eq_or_lt_of_le hk1 with rfl | hk
    · rfl
    · exact hplat k (by omega) (by omega)
  have hmlo : i ≤ m := by omega
  have hmhi : m ≤ j - 1 := by omega
  have hgm : x.getD m 0 = x.getD i 0 := hval m hmlo hmhi
  refine ⟨by omega, by omega, ?_, ?_⟩
  · rcases Nat.eq_or_lt_of_le hmlo with rfl | hmi
    · rw [hgm]
      exact le_of_lt h3i
    · have : x.getD (m - 1) 0 = x.getD i 0 := hval (m - 1) (by omega) (by omega)
      rw [this, hgm]
  · rcases Nat.eq_or_lt_of_le (show m + 1 ≤ j by omega) with hj1 | hlt
    · rw [hj1, hgm]
      exact le_of_lt hj2
    · have : x.getD (m + 1) 0 = x.getD i 0 := hval (m + 1) (by omega) (by omega)
      rw [this, hgm]

theorem suppressClose_subset (d : ℕ) :
    ∀ order kept, suppressClose d kept order ⊆ kept := by
  intro order
  induction order with
  | nil => intro kept a ha; simpa [suppressClose] using ha
  | cons j rest ih =>
    intro kept a ha
    unfold suppressClose at ha
    by_cases hj : j ∈ kept
    · rw [if_pos hj] at ha
      exact List.mem_of_mem_filter (ih _ ha)
    · rw [if_neg hj] at ha
      exact ih _ ha

theorem suppressClose_separated (d : ℕ) :
    ∀ order kept a b, a ∈ suppressClose d kept order →
      b ∈ suppressClose d kept order → a ≠ b → b ∈ order →
      d ≤ Int.natAbs ((a : ℤ) - (b : ℤ)) := by
  intro order
  induction order with
  | nil => intro kept a b _ _ _ hb; cases hb
  | cons j rest ih =>
    intro kept a b ha hb hne hbo
    unfold suppressClose at ha hb
    by_cases hj : j ∈ kept
    · rw [if_pos hj] at ha hb
      rcases List.mem_cons.1 hbo with rfl | hbo
      · have hasub := suppressClose_subset d rest _ ha
        rw [List.mem_filter] at hasub
        have hcond := hasub.2
        simp only [Bool.or_eq_true, decide_eq_true_eq] at hcond
        rcases hcond with rfl | hd
        · exact absurd rfl hne
        · exact hd
      · exact ih _ a b ha hb hne hbo
    · rw [if_neg hj] at ha hb
      rcases List.mem_cons.1 hbo with rfl | hbo
      · exact absurd (suppressClose_subset d rest kept hb) hj
      · exact ih _ a b ha hb hne hbo

theorem find_peaks_mem (x : List ℚ) (h : ℚ) (d : ℕ) (pr : ℚ) (p : ℕ)
    (hp : p ∈ find_peaks x h d pr) :
    p ∈ localMaxima x ∧ h ≤ x.getD p 0 := by
  unfold find_peaks at hp
  rw [List.mem_filter] at hp
  have hsel := hp.1
  have hkept := suppressClose_subset d _ _ hsel
  rw [List.mem_filter] at hkept
  refine ⟨hkept.1, ?_⟩
  have := hkept.2
  simpa using this

theorem find_peaks_separated (x : List ℚ) (h : ℚ) (d : ℕ) (pr : ℚ) (p q : ℕ)
    (hp : p ∈ find_peaks x h d pr) (hq : q ∈ find_peaks x h d pr) (hne : p ≠ q) :
    d ≤ Int.natAbs ((p : ℤ) - (q : ℤ)) := by
  unfold find_peaks at hp hq
  rw [List.mem_filter] at hp hq
  have hq_kept := suppressClose_subset d _ _ hq.1
  have hq_order := (mem_sortDesc (fun i => x.getD i 0) q _).2 hq_kept
  exact suppressClose_separated d _ _ p q hp.1 hq.1 hne hq_order

theorem mkLine_fields (sg : List ℚ → List ℚ)
    (fit : List ℚ → List ℚ → ℚ × ℚ × ℚ → Option (ℚ × ℚ × ℚ))
    (wavelength flux error : List ℚ) (p : ℕ) (line : EmissionLine)
    (h : mkLine sg fit wavelength flux error p = some line) :
    line.peak_index = p ∧ line.snr = (snrSpectrumOf sg flux error).getD p 0 := by
  simp only [mkLine] at h
  split at h
  · cases h
  · split at h
    · have := Option.some.inj h
      rw [← this]
      exact ⟨rfl, rfl⟩
    · have := Option.some.inj h
      rw [← this]
      exact ⟨rfl, rfl⟩

/-- Claim C7: every line returned by detect_emission_lines sits at a (weak)
local maximum of the continuum-subtracted SNR spectrum, its recorded snr is
that spectrum at the peak index and is at least snr_threshold, and the peak
indices of two distinct lines differ by at least 5 samples.  The theorem
holds for every behaviour of the savgol smoother and of curve_fit. -/
theorem detect_emission_lines_spec
    (sg : List ℚ → List ℚ) (fit : List ℚ → List ℚ → ℚ × ℚ × ℚ → Option (ℚ × ℚ × ℚ))
    (wavelength flux error : List ℚ) (t : ℚ) (line : EmissionLine)
    (hline : line ∈ detect_emission_lines sg fit wavelength flux error t) :
    line.snr = (snrSpectrumOf sg flux error).getD line.peak_index 0 ∧
    t ≤ line.snr ∧
    1 ≤ line.peak_index ∧
    line.peak_index + 2 ≤ (snrSpectrumOf sg flux error).length ∧
    (snrSpectrumOf sg flux error).getD (line.peak_index - 1) 0 ≤
      (snrSpectrumOf sg flux error).getD line.peak_index 0 ∧
    (snrSpectrumOf sg flux error).getD (line.peak_index + 1) 0 ≤
      (snrSpectrumOf sg flux error).getD line.peak_index 0 ∧
    ∀ line2 ∈ detect_emission_lines sg fit wavelength flux error t,
      line.peak_index ≠ line2.peak_index →
      5 ≤ Int.natAbs ((line.peak_index : ℤ) - (line2.peak_index : ℤ)) := by
  unfold detect_emission_lines at hline
  rw [List.mem_filterMap] at hline
  obtain ⟨p, hp, hsome⟩ := hline
  obtain ⟨hpi, hsnr⟩ := mkLine_fields sg fit wavelength flux error p line hsome
  subst hpi
  obtain ⟨hlm, hheight⟩ := find_peaks_mem _ t 5 t _ hp
  obtain ⟨hb1, hb2, hleft, hright⟩ := localMaxima_spec _ _ hlm
  refine ⟨hsnr, by rw [hsnr]; exact hheight, hb1, hb2, hleft, hright, ?_⟩
  intro line2 hline2 hne
  unfold detect_emission_lines at hline2
  rw [List.mem_filterMap] at hline2
  obtain ⟨q, hq, hsome2⟩ := hline2
  obtain ⟨hqi, _⟩ := mkLine_fields sg fit wavelength flux error q line2 hsome2
  subst hqi
  exact find_peaks_separated _ t 5 t _ _ hp hq hne

/-- A zero continuum: one concrete smoother behaviour for the witness. -/
def sgZero : List ℚ → List ℚ := fun l => l.map fun _ => 0

/-- A curve_fit that always raises: one concrete fit behaviour. -/
def fitNone : List ℚ → List ℚ → ℚ × ℚ × ℚ → Option (ℚ × ℚ × ℚ) := fun _ _ _ => none

/-- The single line detected on the witness spectrum. -/
def sampleLine : EmissionLine :=
  ⟨3, 10, 1 / 100, 100000000000 / 10000000001, 0, 3⟩

unseal Rat.mul Rat.add Rat.sub Rat.inv in
/-- Claim C7, witness: the line detected on a concrete 7-sample spectrum with
a single spike carries the SNR-spectrum value at its peak and clears the
default threshold 3. -/
theorem detect_emission_lines_spec_witness :
    (3 : ℚ) ≤ sampleLine.snr ∧
      sampleLine.snr =
        (snrSpectrumOf sgZero [0, 0, 0, 10, 0, 0, 0]
          [1, 1, 1, 1, 1, 1, 1]).getD sampleLine.peak_index 0 :=
  have h := detect_emission_lines_spec sgZero fitNone [0, 1, 2, 3, 4, 5, 6]
    [0, 0, 0, 10, 0, 0, 0] [1, 1, 1, 1, 1, 1, 1] 3 sampleLine (by decide)
  ⟨h.2.1, h.1⟩

end Spectra

/-! ## scripts/06_verify_candidates.py -/

namespace Verify

/-- One merged candidate row of generate_verification_report: the fields its
scoring loop reads after the four verification tables are merged on rank. -/
structure VerificationRow where
  rank : ℕ
  cross_filter : String
  is_known_object : Bool
  photometric_consistency : String
  is_artifact : Bool
  is_psf_spike : Bool
  deriving Repr, DecidableEq, Inhabited

/-- python str.startswith(("1", "2", "3")) on the cross_filter status. -/
def crossFilterCheck (s : String) : Bool :=
  s.startsWith ("1") || s.startsWith ("2") || s.startsWith ("3")

/-- The verification score of one row: one point per passed check out of the
four checks, divided by the maximal score 4.0. -/
def verification_score (r : VerificationRow) : ℚ :=
  (((if crossFilterCheck r.cross_filter then (1 : ℚ) else 0) +
    (if r.is_known_object = false then (1 : ℚ) else 0)) +
   ((if r.photometric_consistency = "consistent" then (1 : ℚ) else 0) +
    (if r.is_artifact = false ∧ r.is_psf_spike = false then (1 : ℚ) else 0))) / 4

/-- `generate_verification_report`: keep the first 20 candidates, attach each
row's verification score, and list the rows by descending score. -/
def generate_verification_report (rows : List VerificationRow) :
    List (VerificationRow × ℚ) :=
  sortDesc Prod.snd ((rows.take 20).map fun r => (r, verification_score r))

theorem verification_score_values (r : VerificationRow) :
    verification_score r = 0 ∨ verification_score r = 1 / 4 ∨
      verification_score r = 1 / 2 ∨ verification_score r = 3 / 4 ∨
      verification_score r = 1 := by
  unfold verification_score
  rcases crossFilterCheck r.cross_filter with _ | _ <;>
    rcases r.is_known_object with _ | _ <;>
    by_cases hp : r.photometric_consistency = "consistent" <;>
    rcases r.is_artifact with _ | _ <;>
    rcases r.is_psf_spike with _ | _ <;>
    simp [hp] <;> norm_num

/-- Claim C5: the report covers at most 20 candidates; every listed
candidate's score is its verification score, which is the number of passed
checks among the four binary checks divided by 4 and so lies in
0, 0.25, 0.5, 0.75, 1; and the report lists the candidates in descending
order of that score. -/
theorem generate_verification_report_spec (rows : List VerificationRow) :
    (generate_verification_report rows).length ≤ 20 ∧
    (∀ p ∈ generate_verification_report rows,
      p.2 = verification_score p.1 ∧
        (p.2 = 0 ∨ p.2 = 1 / 4 ∨ p.2 = 1 / 2 ∨ p.2 = 3 / 4 ∨ p.2 = 1)) ∧
    (generate_verification_report rows).Pairwise fun a b => b.2 ≤ a.2 := by
  refine ⟨?_, ?_, ?_⟩
  · unfold generate_verification_report
    rw [length_sortDesc, List.length_map]
    exact le_trans (List.length_take_le 20 rows) (le_refl 20) |>.trans (by omega)
  · intro p hp
    unfold generate_verification_report at hp
    rw [mem_sortDesc, List.mem_map] at hp
    obtain ⟨r, _, rfl⟩ := hp
    exact ⟨rfl, verification_score_values r⟩
  · exact pairwise_sortDesc Prod.snd _

/-- Claim C5, witness: the report of two concrete candidates, one passing all
four checks and one flagged as artifact, listed best first. -/
theorem generate_verification_report_spec_witness :
    (generate_verification_report
        [⟨1, "no_coords", true, "inconsistent", true, false⟩,
         ⟨2, "2 filter(s)", false, "consistent", false, false⟩]).length ≤ 20 ∧
      (∀ p ∈ generate_verification_report
        [⟨1, "no_coords", true, "inconsistent", true, false⟩,
         ⟨2, "2 filter(s)", false, "consistent", false, false⟩],
        p.2 = verification_score p.1 ∧
          (p.2 = 0 ∨ p.2 = 1 / 4 ∨ p.2 = 1 / 2 ∨ p.2 = 3 / 4 ∨ p.2 = 1)) ∧
      (generate_verification_report
        [⟨1, "no_coords", true, "inconsistent", true, false⟩,
         ⟨2, "2 filter(s)", false, "consistent", false, false⟩]).Pairwise
        fun a b => b.2 ≤ a.2 :=
  generate_verification_report_spec
    [⟨1, "no_coords", true, "inconsistent", true, false⟩,
     ⟨2, "2 filter(s)", false, "consistent", false, false⟩]

end Verify

/-! ## scripts/01_download_jwst.py -/

namespace Download

/-- The size and file-count budget of the downloader configuration. -/
structure DownloadConfig where
  max_total_gb : ℚ
  max_files : ℕ
  deriving Repr, DecidableEq

/-- The accumulator of the product-collection phase: the sizes of the
accepted products (all_products) and the running total size. -/
structure CollectState where
  accepted : List ℚ
  total_size_gb : ℚ
  deriving Repr, DecidableEq

/-- One product of the REST-API strategy: the guards its loop body tests
before the budget check, and the size of the downloaded file. -/
structure RestProduct where
  is_i2d : Bool
  has_url : Bool
  download_ok : Bool
  size_gb : ℚ
  deriving Repr, DecidableEq

/-- One file of the local-scan strategies: whether its name matches an image
product type, whether the stat call succeeds, and the file size. -/
structure LocalFile where
  matches_type : Bool
  stat_ok : Bool
  size_gb : ℚ
  deriving Repr, DecidableEq

/-- One product of the per-observation query strategy: whether it passes the
product-type and calib-level filters, and its estimated size. -/
structure QueryProduct where
  passes_filter : Bool
  size_gb : ℚ
  deriving Repr, DecidableEq

/-- The REST-API product loop over one observation: a product that passes
the i2d, url and download guards is accepted when its size fits the
remaining budget (no count guard here); reaching max_files accepted products
breaks the loop.  Returns the final state, the products_found flag and the
trace of states after each acceptance. -/
def strat1Obs (cfg : DownloadConfig) :
    List RestProduct → CollectState → Bool → CollectState × Bool × List CollectState
  | [], st, found => (st, found, [])
  | p :: ps, st, found =>
    if p.is_i2d ∧ p.has_url ∧ p.download_ok then
      if st.total_size_gb + p.size_gb ≤ cfg.max_total_gb then
        let st2 : CollectState := ⟨st.accepted ++ [p.size_gb], st.total_size_gb + p.size_gb⟩
        if cfg.max_files ≤ st2.accepted.length then (st2, true, [st2])
        else
          let r := strat1Obs cfg ps st2 true
          (r.1, r.2.1, st2 :: r.2.2)
      else strat1Obs cfg ps st found
    else strat1Obs cfg ps st found

/-- The REST-API strategy: the observations are queried in turn, and the
outer loop breaks once products_found is set. -/
def strat1 (cfg : DownloadConfig) :
    List (List RestProduct) → CollectState → Bool → CollectState × List CollectState
  | [], st, _ => (st, [])
  | obs :: rest, st, found =>
    let r := strat1Obs cfg obs st found
    if r.2.1 then (r.1, r.2.2)
    else
      let r2 := strat1 cfg rest r.1 r.2.1
      (r2.1, r.2.2 ++ r2.2)

/-- The file scan shared by both methods of the direct-download strategy: a
file that matches an image product type and whose stat call succeeds is
accepted when its size fits the budget (no count guard here); reaching
max_files accepted products breaks the scan. -/
def strat2Files (cfg : DownloadConfig) :
    List LocalFile → CollectState → CollectState × List CollectState
  | [], st => (st, [])
  | f :: fs, st =>
    if f.matches_type then
      if f.stat_ok then
        if st.total_size_gb + f.size_gb ≤ cfg.max_total_gb then
          let st2 : CollectState := ⟨st.accepted ++ [f.size_gb], st.total_size_gb + f.size_gb⟩
          if cfg.max_files ≤ st2.accepted.length then (st2, [st2])
          else
            let r := strat2Files cfg fs st2
            (r.1, st2 :: r.2)
        else strat2Files cfg fs st
      else strat2Files cfg fs st
    else strat2Files cfg fs st

/-- Method 2 of the direct-download strategy: per observation, download and
scan the FITS files; the observation loop breaks once any product was
accepted. -/
def strat2m2 (cfg : DownloadConfig) :
    List (List LocalFile) → CollectState → CollectState × List CollectState
  | [], st => (st, [])
  | files :: rest, st =>
    let r := strat2Files cfg files st
    if 0 < r.1.accepted.length then r
    else
      let r2 := strat2m2 cfg rest r.1
      (r2.1, r.2 ++ r2.2)

/-- The product loop of the per-observation query strategy: here the guard
tests both the remaining budget and the file count before accepting. -/
def strat3Obs (cfg : DownloadConfig) :
    List QueryProduct → CollectState → CollectState × List CollectState
  | [], st => (st, [])
  | p :: ps, st =>
    if p.passes_filter then
      if st.total_size_gb + p.size_gb ≤ cfg.max_total_gb ∧
          st.accepted.length < cfg.max_files then
        let st2 : CollectState := ⟨st.accepted ++ [p.size_gb], st.total_size_gb + p.size_gb⟩
        if cfg.max_files ≤ st2.accepted.length then (st2, [st2])
        else
          let r := strat3Obs cfg ps st2
          (r.1, st2 :: r.2)
      else strat3Obs cfg ps st
    else strat3Obs cfg ps st

/-- The per-observation query strategy: the observation loop breaks when the
file count reached max_files. -/
def strat3 (cfg : DownloadConfig) :
    List (List QueryProduct) → CollectState → CollectState × List CollectState
  | [], st => (st, [])
  | obs :: rest, st =>
    let r := strat3Obs cfg obs st
    if cfg.max_files ≤ r.1.accepted.length then r
    else
      let r2 := strat3 cfg rest r.1
      (r2.1, r.2 ++ r2.2)

/-- The whole product-collection phase of download_jwst_data.  The REST
strategy runs first; when it accepted nothing the direct-download strategy
runs: method 1 over the already-downloaded files, then method 2 only when
method 1 raised (m1_raised) before accepting anything (an acceptance is
always followed by the StopIteration break, and every per-file body is
wrapped in try/except, so a method-1 exception implies an empty list); when
the list is still empty the per-observation query strategy runs.  The
returned trace holds the initial state and every state after an
acceptance. -/
def collect_products (cfg : DownloadConfig) (rest_obs : List (List RestProduct))
    (m1_files : List LocalFile) (m1_raised : Bool) (m2_obs : List (List LocalFile))
    (query_obs : List (List QueryProduct)) : CollectState × List CollectState :=
  let st0 : CollectState := ⟨[], 0⟩
  let r1 := strat1 cfg rest_obs st0 false
  if r1.1.accepted.length ≠ 0 then (r1.1, st0 :: r1.2)
  else
    let r2 :=
      if m1_raised then strat2m2 cfg m2_obs r1.1
      else strat2Files cfg m1_files r1.1
    if r2.1.accepted.length ≠ 0 then (r2.1, st0 :: r1.2 ++ r2.2)
    else
      let r3 := strat3 cfg query_obs r2.1
      (r3.1, st0 :: r1.2 ++ r2.2 ++ r3.2)

/-- The budget invariant of the collection phase: the accepted count is
within max_files and the accounted size within max_total_gb. -/
def stOk (cfg : DownloadConfig) (s : CollectState) : Prop :=
  s.accepted.length ≤ cfg.max_files ∧ s.total_size_gb ≤ cfg.max_total_gb

theorem strat1Obs_found_true (cfg : DownloadConfig) :
    ∀ ps st, (strat1Obs cfg ps st true).2.1 = true := by
  intro ps
  induction ps with
  | nil => intro st; rfl
  | cons p ps ih =>
    intro st
    simp only [strat1Obs]
    split
    · split
      · split
        · rfl
        · exact ih _
      · exact ih _
    · exact ih _

theorem strat1Obs_inv (cfg : DownloadConfig) :
    ∀ ps st found, st.accepted.length < cfg.max_files →
      st.total_size_gb ≤ cfg.max_total_gb →
      (∀ s ∈ (strat1Obs cfg ps st found).2.2, stOk cfg s) ∧
      stOk cfg (strat1Obs cfg ps st found).1 ∧
      ((strat1Obs cfg ps st found).2.1 = false → (strat1Obs cfg ps st found).1 = st) := by
  intro ps
  induction ps with
  | nil =>
    intro st found hc ht
    exact ⟨fun s hs => absurd hs (List.not_mem_nil s), ⟨le_of_lt hc, ht⟩, fun _ => rfl⟩
  | cons p ps ih =>
    intro st found hc ht
    simp only [strat1Obs]
    split
    · split
      · rename_i hguard hbudget
        split
        · rename_i hbreak
          have hok : stOk cfg ⟨st.accepted ++ [p.size_gb], st.total_size_gb + p.size_gb⟩ := by
            constructor
            · simpa using hc
            · exact hbudget
          refine ⟨fun s hs => ?_, hok, fun h => nomatch h⟩
          rcases List.mem_singleton.1 hs with rfl
          exact hok
        · rename_i hbreak
          have hc2 : (st.accepted ++ [p.size_gb]).length < cfg.max_files := by
            simpa using Nat.lt_of_not_le hbreak
          obtain ⟨htr, hres, _⟩ := ih ⟨st.accepted ++ [p.size_gb], st.total_size_gb + p.size_gb⟩
            true hc2 hbudget
          refine ⟨fun s hs => ?_, hres, fun h => ?_⟩
          · rcases List.mem_cons.1 hs with rfl | hs
            · exact ⟨by simpa using hc, hbudget⟩
            · exact htr s hs
          · rw [strat1Obs_found_true] at h
            exact nomatch h
      · exact ih st found hc ht
    · exact ih st found hc ht

theorem strat1_inv (cfg : DownloadConfig) :
    ∀ obsList st found, st.accepted.length < cfg.max_files →
      st.total_size_gb ≤ cfg.max_total_gb →
      (∀ s ∈ (strat1 cfg obsList st found).2, stOk cfg s) ∧
      stOk cfg (strat1 cfg obsList st found).1 := by
  intro obsList
  induction obsList with
  | nil =>
    intro st found hc ht
    exact ⟨fun s hs => absurd hs (List.not_mem_nil s), le_of_lt hc, ht⟩
  | cons obs rest ih =>
    intro st found hc ht
    obtain ⟨htr, hres, hImp⟩ := strat1Obs_inv cfg obs st found hc ht
    simp only [strat1]
    split
    · exact ⟨htr, hres⟩
    · rename_i hfound
      have heq := hImp (Bool.not_eq_true _ ▸ Bool.of_not_eq_true hfound)
      rw [heq]
      obtain ⟨htr2, hres2⟩ := ih st _ hc ht
      refine ⟨fun s hs => ?_, hres2⟩
      rcases List.mem_append.1 hs with hs | hs
      · exact htr s (heq ▸ hs)
      · exact htr2 s hs

theorem strat2Files_inv (cfg : DownloadConfig) :
    ∀ fs st, st.accepted.length < cfg.max_files →
      st.total_size_gb ≤ cfg.max_total_gb →
      (∀ s ∈ (strat2Files cfg fs st).2, stOk cfg s) ∧
      stOk cfg (strat2Files cfg fs st).1 := by
  intro fs
  induction fs with
  | nil =>
    intro st hc ht
    exact ⟨fun s hs => absurd hs (List.not_mem_nil s), le_of_lt hc, ht⟩
  | cons f fs ih =>
    intro st hc ht
    simp only [strat2Files]
    split
    · split
      · split
        · split
          · rename_i hbudget hbreak
            have hok : stOk cfg ⟨st.accepted ++ [f.size_gb], st.total_size_gb + f.size_gb⟩ :=
              ⟨by simpa using hc, hbudget⟩
            refine ⟨fun s hs => ?_, hok⟩
            rcases List.mem_singleton.1 hs with rfl
            exact hok
          · rename_i hbudget hbreak
            have hc2 : (st.accepted ++ [f.size_gb]).length < cfg.max_files := by
              simpa using Nat.lt_of_not_le hbreak
            obtain ⟨htr, hres⟩ := ih ⟨st.accepted ++ [f.size_gb], st.total_size_gb + f.size_gb⟩
              hc2 hbudget
            refine ⟨fun s hs => ?_, hres⟩
            rcases List.mem_cons.1 hs with rfl | hs
            · exact ⟨by simpa using hc, hbudget⟩
            · exact htr s hs
        · exact ih st hc ht
      · exact ih st hc ht
    · exact ih st hc ht

theorem strat2m2_inv (cfg : DownloadConfig) (hmf : 1 ≤ cfg.max_files) :
    ∀ obsList st, st.accepted.length < cfg.max_files →
      st.total_size_gb ≤ cfg.max_total_gb →
      (∀ s ∈ (strat2m2 cfg obsList st).2, stOk cfg s) ∧
      stOk cfg (strat2m2 cfg obsList st).1 := by
  intro obsList
  induction obsList with
  | nil =>
    intro st hc ht
    exact ⟨fun s hs => absurd hs (List.not_mem_nil s), le_of_lt hc, ht⟩
  | cons files rest ih =>
    intro st hc ht
    obtain ⟨htr, hres⟩ := strat2Files_inv cfg files st hc ht
    simp only [strat2m2]
    split
    · exact ⟨htr, hres⟩
    · rename_i hz
      have hc2 : (strat2Files cfg files st).1.accepted.length < cfg.max_files := by
        omega
      obtain ⟨htr2, hres2⟩ := ih _ hc2 hres.2
      refine ⟨fun s hs => ?_, hres2⟩
      rcases List.mem_append.1 hs with hs | hs
      · exact htr s hs
      · exact htr2 s hs

theorem strat3Obs_inv (cfg : DownloadConfig) :
    ∀ ps st, st.accepted.length ≤ cfg.max_files →
      st.total_size_gb ≤ cfg.max_total_gb →
      (∀ s ∈ (strat3Obs cfg ps st).2, stOk cfg s) ∧
      stOk cfg (strat3Obs cfg ps st).1 := by
  intro ps
  induction ps with
  | nil =>
    intro st hc ht
    exact ⟨fun s hs => absurd hs (List.not_mem_nil s), hc, ht⟩
  | cons p ps ih =>
    intro ps' hc ht
    simp only [strat3Obs]
    split
    · split
      · rename_i hguard
        split
        · have hok : stOk cfg ⟨ps'.accepted ++ [p.size_gb], ps'.total_size_gb + p.size_gb⟩ :=
            ⟨by simpa using hguard.2, hguard.1⟩
          refine ⟨fun s hs => ?_, hok⟩
          rcases List.mem_singleton.1 hs with rfl
          exact hok
        · rename_i hbreak
          have hc2 : (ps'.accepted ++ [p.size_gb]).length ≤ cfg.max_files := by
            simpa using hguard.2
          obtain ⟨htr, hres⟩ := ih ⟨ps'.accepted ++ [p.size_gb], ps'.total_size_gb + p.size_gb⟩
            hc2 hguard.1
          refine ⟨fun s hs => ?_, hres⟩
          rcases List.mem_cons.1 hs with rfl | hs
          · exact ⟨by simpa using hguard.2, hguard.1⟩
          · exact htr s hs
      · exact ih ps' hc ht
    · exact ih ps' hc ht

theorem strat3_inv (cfg : DownloadConfig) :
    ∀ obsList st, st.accepted.length ≤ cfg.max_files →
      st.total_size_gb ≤ cfg.max_total_gb →
      (∀ s ∈ (strat3 cfg obsList st).2, stOk cfg s) ∧
      stOk cfg (strat3 cfg obsList st).1 := by
  intro obsList
  induction obsList with
  | nil =>
    intro st hc ht
    exact ⟨fun s hs => absurd hs (List.not_mem_nil s), hc, ht⟩
  | cons obs rest ih =>
    intro st hc ht
    obtain ⟨htr, hres⟩ := strat3Obs_inv cfg obs st hc ht
    simp only [strat3]
    split
    · exact ⟨htr, hres⟩
    · obtain ⟨htr2, hres2⟩ := ih _ hres.1 hres.2
      refine ⟨fun s hs => ?_, hres2⟩
      rcases List.mem_append.1 hs with hs | hs
      · exact htr s hs
      · exact htr2 s hs

/-- Claim C6 (amended): provided max_files is at least 1 and max_total_gb is
nonnegative, every state reached during product collection, across all three
fallback strategies, keeps the accepted count within max_files and the
accounted total size within max_total_gb, and so does the final state. -/
theorem collect_products_inv (cfg : DownloadConfig)
    (rest_obs : List (List RestProduct)) (m1_files : List LocalFile)
    (m1_raised : Bool) (m2_obs : List (List LocalFile))
    (query_obs : List (List QueryProduct))
    (hmf : 1 ≤ cfg.max_files) (hmt : 0 ≤ cfg.max_total_gb) :
    (∀ s ∈ (collect_products cfg rest_obs m1_files m1_raised m2_obs query_obs).2,
        stOk cfg s) ∧
    stOk cfg (collect_products cfg rest_obs m1_files m1_raised m2_obs query_obs).1 := by
  have hok0 : stOk cfg ⟨[], 0⟩ := ⟨by simp, hmt⟩
  have hc0 : (⟨[], 0⟩ : CollectState).accepted.length < cfg.max_files := by
    simpa using hmf
  obtain ⟨tr1, res1⟩ := strat1_inv cfg rest_obs ⟨[], 0⟩ false hc0 hmt
  simp only [collect_products]
  split
  · refine ⟨fun s hs => ?_, res1⟩
    rcases List.mem_cons.1 hs with rfl | hs
    · exact hok0
    · exact tr1 s hs
  · rename_i hz1
    have hz1' : (strat1 cfg rest_obs ⟨[], 0⟩ false).1.accepted.length = 0 := by omega
    have hc1 : (strat1 cfg rest_obs ⟨[], 0⟩ false).1.accepted.length < cfg.max_files := by
      omega
    rcases m1_raised with _ | _
    · have hff : ¬ ((false : Bool) = true) := by simp
      rw [if_neg hff]
      obtain ⟨tr2, res2⟩ := strat2Files_inv cfg m1_files _ hc1 res1.2
      split
      · refine ⟨fun s hs => ?_, res2⟩
        rcases List.mem_cons.1 hs with rfl | hs
        · exact hok0
        · rcases List.mem_append.1 hs with hs | hs
          · exact tr1 s hs
          · exact tr2 s hs
      · obtain ⟨tr3, res3⟩ := strat3_inv cfg query_obs _ res2.1 res2.2
        refine ⟨fun s hs => ?_, res3⟩
        rcases List.mem_cons.1 hs with rfl | hs
        · exact hok0
        · rcases List.mem_append.1 hs with hs | hs
          · rcases List.mem_append.1 hs with hs | hs
            · exact tr1 s hs
            · exact tr2 s hs
          · exact tr3 s hs
    · have htt : ((true : Bool) = true) := rfl
      rw [if_pos htt]
      obtain ⟨tr2, res2⟩ := strat2m2_inv cfg hmf m2_obs _ hc1 res1.2
      split
      · refine ⟨fun s hs => ?_, res2⟩
        rcases List.mem_cons.1 hs with rfl | hs
        · exact hok0
        · rcases List.mem_append.1 hs with hs | hs
          · exact tr1 s hs
          · exact tr2 s hs
      · obtain ⟨tr3, res3⟩ := strat3_inv cfg query_obs _ res2.1 res2.2
        refine ⟨fun s hs => ?_, res3⟩
        rcases List.mem_cons.1 hs with rfl | hs
        · exact hok0
        · rcases List.mem_append.1 hs with hs | hs
          · rcases List.mem_append.1 hs with hs | hs
            · exact tr1 s hs
            · exact tr2 s hs
          · exact tr3 s hs

unseal Rat.mul Rat.add Rat.sub Rat.inv in
/-- Claim C6, counterexample: with max_files = 0 the REST strategy still
accepts a product whose size fits the budget, because its loop has no count
guard before the append (the count is only checked afterwards to break), so
the accepted count exceeds max_files. -/
theorem collect_products_count_counterexample :
    ¬ ((collect_products ⟨1, 0⟩ [[⟨true, true, true, 1 / 2⟩]] [] false [] []).1.accepted.length
        ≤ (⟨1, 0⟩ : DownloadConfig).max_files) := by decide

/-- Claim C6, witness: the amended invariant on a concrete run that accepts
one product of size 1 against a budget of 2 GB and 1 file. -/
theorem collect_products_inv_witness :
    stOk ⟨2, 1⟩ (collect_products ⟨2, 1⟩ [[⟨true, true, true, 1⟩]] [] false [] []).1 :=
  (collect_products_inv ⟨2, 1⟩ [[⟨true, true, true, 1⟩]] [] false [] []
    (by norm_num) (by norm_num)).2

end Download

end JwstLab
